import Mathlib

/-!
# Verification of `PeriodogramAnalysis.py`

A shallow embedding of the spectral band-power pipeline in
`src/PeriodogramAnalysis/PeriodogramAnalysis.py`.  Samples, frequencies and
power values are modelled as exact rationals (`ℚ`).  The two opaque numeric
routines whose outputs are irrational in general — the windowed-periodogram
kernel inside `scipy.signal.welch` (taper, overlap, FFT magnitudes) and the
external `multitaper_psd` — are taken as explicit function parameters, while
everything the claims speak about (mean-centering, `nperseg`/`nfft`
selection and validation, the frequency axis, band masking, Simpson
integration with its degenerate cases, error propagation, and result
assembly) is embedded from the source and from the documented semantics of
the scipy routines the source calls.
-/

set_option autoImplicit false

deriving instance DecidableEq for Except

namespace PeriodogramAnalysis

/-- Python-level outcomes of running a piece of the pipeline.  The first
constructors model exceptions actually raised by the code or the scipy
routines it calls; `invalidWindowError` and `insufficientResolutionError`
are the error kinds named by the specification (§7), included so that
claims about them can be stated.  The code never constructs them. -/
inductive PyErr where
  | valueError
  | indexError
  | keyError
  | typeError
  | zeroDivisionError
  | invalidWindowError
  | insufficientResolutionError
deriving DecidableEq

/-- An IEEE-style float outcome: a finite (here exact rational) value, or
one of the non-finite values numpy division can produce without raising. -/
inductive PyFloat where
  | val : ℚ → PyFloat
  | nan : PyFloat
  | inf : PyFloat
  | ninf : PyFloat
deriving DecidableEq

/-- numpy float division: never raises; `0/0 = nan`, `x/0 = ±inf`. -/
def npdiv (a b : ℚ) : PyFloat :=
  if b = 0 then (if a = 0 then .nan else if 0 < a then .inf else .ninf)
  else .val (a / b)

/-- Python `int()` on a float: truncation toward zero. -/
def pyint (q : ℚ) : ℤ :=
  if 0 ≤ q then ⌊q⌋ else -⌊-q⌋

/-- `np.mean`: arithmetic mean (0 on the empty list, which the code only
meets when the whole buffer is empty and `welch` short-circuits anyway). -/
def npMean (xs : List ℚ) : ℚ := xs.sum / xs.length

/-- Line 88: `signal.data[:, channel] - np.mean(signal.data[:, channel])`. -/
def center (xs : List ℚ) : List ℚ := xs.map (fun a => a - npMean xs)

/-- `np.fft.rfftfreq n (1/fs)`: the `n/2 + 1` frequencies `k·fs/n`. -/
def rfftfreq (n : ℕ) (fs : ℚ) : List ℚ :=
  (List.range (n / 2 + 1)).map (fun k => (k : ℚ) * fs / (n : ℚ))

/-- numpy integer indexing `xs[i]` (nonnegative index). -/
def pyGet (xs : List ℚ) (i : ℕ) : Except PyErr ℚ :=
  if h : i < xs.length then .ok xs[i] else .error .indexError

/-- The sum `Σ_{j<m} (y[2j] + 4·y[2j+1] + y[2j+2])` underlying scipy's
`_basic_simpson` on a uniform grid (its three strided slices). -/
def simpsonPairs (y : List ℚ) (m : ℕ) : ℚ :=
  ((List.range m).map
    (fun j => y.getD (2 * j) 0 + 4 * y.getD (2 * j + 1) 0 + y.getD (2 * j + 2) 0)).sum

/-- `scipy.integrate.simpson(y, dx=dx)` (scipy ≥ 1.11 semantics, uniform
spacing, no `x`): composite Simpson for an odd number of points (an even
number of points — 0 via empty strided slices); for an even number of
points, Simpson over the first `N-3` intervals plus Cartwright's corrected
last interval `dx·(5/12·y[N-1] + 2/3·y[N-2] - 1/12·y[N-3])`, with the
two-point case reducing to the trapezoid; integer indexing `y[-1]` on an
empty array raises `IndexError`. -/
def simpson (y : List ℚ) (dx : ℚ) : Except PyErr ℚ :=
  let N := y.length
  if N % 2 = 1 then .ok (dx / 3 * simpsonPairs y ((N - 1) / 2))
  else if N = 0 then .error .indexError
  else if N = 2 then .ok (dx / 2 * (y.getD 0 0 + y.getD 1 0))
  else .ok (dx / 3 * simpsonPairs y ((N - 2) / 2)
      + dx * (5 / 12 * y.getD (N - 1) 0 + 2 / 3 * y.getD (N - 2) 0
          - 1 / 12 * y.getD (N - 3) 0))

/-- The opaque single-curve spectral kernel of `scipy.signal.welch`:
given the (already validated) input samples, the sample rate, the final
`nperseg` and `nfft`, it returns the power-density values.  Its internals
(Hann taper, 50 % overlap, FFT magnitudes) are irrational-valued and opaque
to every claim, so the development is parametric in it. -/
abbrev WelchKernel := List ℚ → ℚ → ℕ → ℕ → List ℚ

/-- `scipy.signal.welch(x, fs, nperseg=nperseg, nfft=nfft)`, following
`_spectral_helper`/`_triage_segments`: empty input returns empty arrays;
`int(nperseg) < 1` raises `ValueError`; an `nperseg` larger than the input
length is silently clamped to the input length (a warning, not an error);
`nfft = None` defaults to the clamped `nperseg`, and `nfft < nperseg`
raises `ValueError`.  Returns `(freqs, psd)`. -/
def welch (K : WelchKernel) (x : List ℚ) (fs : ℚ) (nperseg : ℚ)
    (nfft : Option ℚ) : Except PyErr (List ℚ × List ℚ) :=
  if x.length = 0 then .ok ([], []) else
  let np0 := pyint nperseg
  if np0 < 1 then .error .valueError else
  let nseg : ℕ := if (x.length : ℤ) < np0 then x.length else np0.toNat
  match nfft with
  | none => .ok (rfftfreq nseg fs, K x fs nseg nseg)
  | some q =>
      if q < (nseg : ℚ) then .error .valueError
      else
        let nf := (pyint q).toNat
        .ok (rfftfreq nf fs, K x fs nseg nf)

/-- A chunk of the input signal: 2-D sample buffer (time × channel),
sample rate, declared channel count. -/
structure PySignal where
  data : List (List ℚ)
  rate : ℚ
  number_of_channels : ℕ
deriving DecidableEq

/-- `signal.data[:, channel]` / `signal[channel]`: one channel's samples. -/
def PySignal.col (s : PySignal) (ch : ℕ) : List ℚ :=
  s.data.map (fun row => row.getD ch 0)

/-- Every row of the buffer has the declared channel count. -/
def PySignal.wf (s : PySignal) : Prop :=
  ∀ row ∈ s.data, row.length = s.number_of_channels

instance (s : PySignal) : Decidable s.wf := by
  unfold PySignal.wf; infer_instance

/-- Add a constant offset to every sample of every channel. -/
def PySignal.shift (s : PySignal) (c : ℚ) : PySignal :=
  { s with data := s.data.map (fun row => row.map (fun a => a + c)) }

/-- Replace every channel's samples by their mean-centered version. -/
def PySignal.centerData (s : PySignal) : PySignal :=
  { s with data := s.data.map (fun row =>
      (List.range s.number_of_channels).map
        (fun c => row.getD c 0 - npMean (s.col c))) }

/-- The configuration fields of the `PeriodogramAnalysis` dataclass. -/
structure PAConfig where
  exclude_channel_list : List ℕ
  band_list : List (ℚ × ℚ)
  window_length_for_welch : Option ℚ
deriving DecidableEq

/-- A PSD curve: frequency bins and power-density values. -/
structure Curve where
  freqs : List ℚ
  psd : List ℚ
deriving DecidableEq

/-- Lines 125–129 / 291 / 328:
`np.logical_and(freqs >= low, freqs <= high)`. -/
def bandMask (low high : ℚ) (freqs : List ℚ) : List Bool :=
  freqs.map (fun f => decide (low ≤ f) && decide (f ≤ high))

/-- numpy boolean-mask selection `ys[mask]`. -/
def maskSelect (mask : List Bool) (ys : List ℚ) : List ℚ :=
  ((mask.zip ys).filter (fun p => p.1)).map (fun p => p.2)

/-- The five hardcoded canonical EEG bands of lines 110–116, in insertion
order delta, theta, alpha, beta, gamma. -/
def canonicalBands : List (ℚ × ℚ) :=
  [(1 / 2, 4), (4, 8), (8, 12), (12, 30), (30, 100)]

/-- The per-(chunk, channel) record assembled in lines 144–160. -/
structure PowerRecord where
  idx_delta : List Bool
  idx_theta : List Bool
  idx_alpha : List Bool
  idx_beta : List Bool
  idx_gamma : List Bool
  delta_power : ℚ
  theta_power : ℚ
  alpha_power : ℚ
  beta_power : ℚ
  gamma_power : ℚ
  delta_rel_power : PyFloat
  theta_rel_power : PyFloat
  alpha_rel_power : PyFloat
  beta_rel_power : PyFloat
  gamma_rel_power : PyFloat
deriving DecidableEq

/-- Lines 125–160 of the channel loop of
`computing_absolute_and_relative_power`, after `freq_res` has been
computed: the five canonical band masks, the five Simpson band powers, the
total power, and the five numpy relative-power divisions. -/
def channelPowerAux (c : Curve) (freq_res : ℚ) : Except PyErr PowerRecord := do
  let idx_delta := bandMask (1 / 2) 4 c.freqs
  let idx_theta := bandMask 4 8 c.freqs
  let idx_alpha := bandMask 8 12 c.freqs
  let idx_beta := bandMask 12 30 c.freqs
  let idx_gamma := bandMask 30 100 c.freqs
  let delta_power ← simpson (maskSelect idx_delta c.psd) freq_res
  let theta_power ← simpson (maskSelect idx_theta c.psd) freq_res
  let alpha_power ← simpson (maskSelect idx_alpha c.psd) freq_res
  let beta_power ← simpson (maskSelect idx_beta c.psd) freq_res
  let gamma_power ← simpson (maskSelect idx_gamma c.psd) freq_res
  let total_power ← simpson c.psd freq_res
  pure
    { idx_delta := idx_delta, idx_theta := idx_theta, idx_alpha := idx_alpha
      idx_beta := idx_beta, idx_gamma := idx_gamma
      delta_power := delta_power, theta_power := theta_power
      alpha_power := alpha_power, beta_power := beta_power
      gamma_power := gamma_power
      delta_rel_power := npdiv delta_power total_power
      theta_rel_power := npdiv theta_power total_power
      alpha_rel_power := npdiv alpha_power total_power
      beta_rel_power := npdiv beta_power total_power
      gamma_rel_power := npdiv gamma_power total_power }

/-- The body of the channel loop of `computing_absolute_and_relative_power`
(lines 121–160): `freq_res = freqs[1] - freqs[0]` (an `IndexError` on a
curve with fewer than two bins), then the masks, powers and relative
powers. -/
def channelPower (c : Curve) : Except PyErr PowerRecord := do
  let f1 ← pyGet c.freqs 1
  let f0 ← pyGet c.freqs 0
  channelPowerAux c (f1 - f0)

/-- `computing_absolute_and_relative_power` (lines 96–162): iterate the
channels of the chunk's PSD dictionary in insertion order, stopping at the
first raised exception. -/
def computing_absolute_and_relative_power :
    List (ℕ × Curve) → Except PyErr (List (ℕ × PowerRecord))
  | [] => .ok []
  | (k, c) :: rest =>
    match channelPower c with
    | .error e => .error e
    | .ok r =>
      match computing_absolute_and_relative_power rest with
      | .error e => .error e
      | .ok rs => .ok ((k, r) :: rs)

/-- The channel loop of `computing_welch_periodogram` (lines 85–93):
skip excluded channels, mean-center the column, call `sig.welch` with
`nperseg = win` and `nfft = 4*win`, and store the curve under the channel
index. -/
def periodogramLoop (K : WelchKernel) (excl : List ℕ) (s : PySignal)
    (win : ℚ) : List ℕ → List (ℕ × Curve) → Except PyErr (List (ℕ × Curve))
  | [], acc => .ok acc
  | ch :: rest, acc =>
    if ch ∈ excl then periodogramLoop K excl s win rest acc
    else
      match welch K (center (s.col ch)) s.rate win (some (4 * win)) with
      | .error e => .error e
      | .ok fp => periodogramLoop K excl s win rest (acc ++ [(ch, ⟨fp.1, fp.2⟩)])

/-- `computing_welch_periodogram` (lines 69–94): `win` is
`window_length_for_welch * signal.rate` (a `None` window would make the
multiplication on line 83 raise `TypeError`), then the channel loop. -/
def computing_welch_periodogram (K : WelchKernel) (cfg : PAConfig)
    (s : PySignal) : Except PyErr (List (ℕ × Curve)) :=
  match cfg.window_length_for_welch with
  | none => .error .typeError
  | some w =>
      periodogramLoop K cfg.exclude_channel_list s (w * s.rate)
        (List.range s.number_of_channels) []

/-- The specification's Band-Power Integrator (§4.3) applied to a given
PSD curve, exactly as the source inlines it in lines 327–333 and 290–296:
`Δf` from the first two bins, closed-interval band mask, Simpson integral
of the masked values, and for a relative power the numpy division by the
Simpson integral of the whole curve. -/
def bandPowerFromCurve (band : ℚ × ℚ) (relative : Bool) (c : Curve) :
    Except PyErr PyFloat := do
  let f1 ← pyGet c.freqs 1
  let f0 ← pyGet c.freqs 0
  let freq_res := f1 - f0
  let idx_band := bandMask band.1 band.2 c.freqs
  let bp ← simpson (maskSelect idx_band c.psd) freq_res
  if relative then do
    let total ← simpson c.psd freq_res
    pure (npdiv bp total)
  else pure (.val bp)

/-- `computing_welch_bandpower` (lines 298–333): `nperseg` is
`window_length_for_welch * rate` when a window is configured, otherwise
`(2 / low) * rate` (a Python-scalar division, so `low = 0` raises
`ZeroDivisionError`); then `sig.welch` on the *raw* channel samples with
default `nfft`, and the integration steps of lines 327–333. -/
def computing_welch_bandpower (K : WelchKernel) (cfg : PAConfig)
    (s : PySignal) (band : ℚ × ℚ) (channel : ℕ) (relative : Bool) :
    Except PyErr PyFloat := do
  let low := band.1
  let nperseg ←
    match cfg.window_length_for_welch with
    | some w => Except.ok (w * s.rate)
    | none =>
        if low = 0 then Except.error PyErr.zeroDivisionError
        else Except.ok ((2 / low) * s.rate)
  let fp ← welch K (s.col channel) s.rate nperseg none
  let f1 ← pyGet fp.1 1
  let f0 ← pyGet fp.1 0
  let freq_res := f1 - f0
  let idx_band := bandMask band.1 band.2 fp.1
  let bp ← simpson (maskSelect idx_band fp.2) freq_res
  if relative then do
    let total ← simpson fp.2 freq_res
    pure (npdiv bp total)
  else pure (.val bp)

/-- Modelled from the spec: the variant of `computing_welch_bandpower`
that the specification describes (§4.1 "Samples are mean-centered (DC
removed) before estimation ... at every place the Welch estimate is
computed"): identical to the source function except that the channel
samples are mean-centered before `sig.welch`. -/
def computing_welch_bandpower_centered (K : WelchKernel) (cfg : PAConfig)
    (s : PySignal) (band : ℚ × ℚ) (channel : ℕ) (relative : Bool) :
    Except PyErr PyFloat := do
  let low := band.1
  let nperseg ←
    match cfg.window_length_for_welch with
    | some w => Except.ok (w * s.rate)
    | none =>
        if low = 0 then Except.error PyErr.zeroDivisionError
        else Except.ok ((2 / low) * s.rate)
  let fp ← welch K (center (s.col channel)) s.rate nperseg none
  let f1 ← pyGet fp.1 1
  let f0 ← pyGet fp.1 0
  let freq_res := f1 - f0
  let idx_band := bandMask band.1 band.2 fp.1
  let bp ← simpson (maskSelect idx_band fp.2) freq_res
  if relative then do
    let total ← simpson fp.2 freq_res
    pure (npdiv bp total)
  else pure (.val bp)

/-- The external `multitaper_psd` routine (imported from
`MultitaperPowerSpectrum`, not part of `src/`); modelled from the spec
(§4.2) as an opaque deterministic routine `samples × rate → (psd, freqs)`
and kept as a parameter. -/
abbrev MultitaperPSD := List ℚ → ℚ → (List ℚ × List ℚ)

/-- `computing_multitaper_bandpower` (lines 265–296): multitaper PSD of
the raw channel samples, then the same integration steps. -/
def computing_multitaper_bandpower (M : MultitaperPSD) (s : PySignal)
    (band : ℚ × ℚ) (channel : ℕ) (relative : Bool) : Except PyErr PyFloat := do
  let pf := M (s.col channel) s.rate
  let f1 ← pyGet pf.2 1
  let f0 ← pyGet pf.2 0
  let freq_res := f1 - f0
  let idx_band := bandMask band.1 band.2 pf.2
  let bp ← simpson (maskSelect idx_band pf.1) freq_res
  if relative then do
    let total ← simpson pf.1 freq_res
    pure (npdiv bp total)
  else pure (.val bp)

/-- Assoc-list lookup, with a `defaultdict` fallback value. -/
def lookupD {α : Type} (d : List (ℕ × α)) (k : ℕ) (dflt : α) : α :=
  match d.find? (fun p => p.1 = k) with
  | some p => p.2
  | none => dflt

/-- The band loop of lines 249–259: per reported band, multitaper absolute
and relative power, then Welch absolute and relative power; the values go
to the logger, so only errors are observable here. -/
def ratioBandLoop (K : WelchKernel) (M : MultitaperPSD) (cfg : PAConfig)
    (s : PySignal) (ch : ℕ) : List (ℚ × ℚ) → Except PyErr Unit
  | [] => .ok ()
  | band :: rest => do
    let _ ← computing_multitaper_bandpower M s band ch false
    let _ ← computing_multitaper_bandpower M s band ch true
    let _ ← computing_welch_bandpower K cfg s band ch false
    let _ ← computing_welch_bandpower K cfg s band ch true
    ratioBandLoop K M cfg s ch rest

/-- The channel loop of `computing_ratio_and_bandpower` (lines 230–263):
skip excluded channels; reading the five stored powers of a channel that
is missing from `power_dict[chunk]` raises `KeyError` (lines 237–247);
then the band loop. -/
def ratioChannelLoop (K : WelchKernel) (M : MultitaperPSD) (cfg : PAConfig)
    (s : PySignal) (powerOfChunk : List (ℕ × PowerRecord)) :
    List ℕ → Except PyErr Unit
  | [] => .ok ()
  | ch :: rest =>
    if ch ∈ cfg.exclude_channel_list then
      ratioChannelLoop K M cfg s powerOfChunk rest
    else
      match powerOfChunk.find? (fun p => p.1 = ch) with
      | none => .error .keyError
      | some _ =>
        match ratioBandLoop K M cfg s ch cfg.band_list with
        | .error e => .error e
        | .ok _ => ratioChannelLoop K M cfg s powerOfChunk rest

/-- `computing_ratio_and_bandpower` (lines 219–263). -/
def computing_ratio_and_bandpower (K : WelchKernel) (M : MultitaperPSD)
    (cfg : PAConfig) (s : PySignal)
    (power_dict : List (ℕ × List (ℕ × PowerRecord))) (chunk_index : ℕ) :
    Except PyErr Unit :=
  ratioChannelLoop K M cfg s (lookupD power_dict chunk_index [])
    (List.range s.number_of_channels)

/-- The chunk loop of `__call__` (lines 57–67), carrying the chunk index
and the two result dictionaries. -/
def callLoop (K : WelchKernel) (M : MultitaperPSD) (cfg : PAConfig) :
    List PySignal → ℕ → List (ℕ × List (ℕ × Curve)) →
    List (ℕ × List (ℕ × PowerRecord)) →
    Except PyErr (List (ℕ × List (ℕ × Curve)) × List (ℕ × List (ℕ × PowerRecord)))
  | [], _, psdD, pwrD => .ok (psdD, pwrD)
  | s :: rest, ci, psdD, pwrD =>
    match computing_welch_periodogram K cfg s with
    | .error e => .error e
    | .ok d =>
      match computing_absolute_and_relative_power d with
      | .error e => .error e
      | .ok p =>
        let psdD2 := psdD ++ [(ci, d)]
        let pwrD2 := pwrD ++ [(ci, p)]
        match computing_ratio_and_bandpower K M cfg s pwrD2 ci with
        | .error e => .error e
        | .ok _ => callLoop K M cfg rest (ci + 1) psdD2 pwrD2

/-- `__call__` (lines 41–67): per chunk, the Welch periodogram dictionary,
the power dictionary, and the logging-side band-power computation; the
whole invocation fails at the first exception, discarding prior chunks. -/
def pyCall (K : WelchKernel) (M : MultitaperPSD) (cfg : PAConfig)
    (sigs : List PySignal) :
    Except PyErr (List (ℕ × List (ℕ × Curve)) × List (ℕ × List (ℕ × PowerRecord))) :=
  callLoop K M cfg sigs 0 [] []

/-- The keys of an association-list dictionary, in insertion order. -/
def keysOf {α : Type} (d : List (ℕ × α)) : List ℕ := d.map Prod.fst

/-- The channel indices `0 .. n-1` that are not excluded. -/
def chanKeys (cfg : PAConfig) (n : ℕ) : List ℕ :=
  (List.range n).filter (fun ch => decide (ch ∉ cfg.exclude_channel_list))

/-- `true` on a successful (non-raising) outcome. -/
def okB {α : Type} : Except PyErr α → Bool
  | .ok _ => true
  | .error _ => false

/-! Concrete kernels, signals and configurations used to evaluate the
embedded program at specific inputs. -/

/-- A kernel returning an all-zero PSD of the correct length. -/
def kernelZero : WelchKernel := fun _ _ _ m => List.replicate (m / 2 + 1) 0

/-- A kernel whose PSD value at bin `k` is `k`; it depends only on `nfft`,
so differences it exhibits come from the frequency-axis parameters alone. -/
def kernelIndex : WelchKernel :=
  fun _ _ _ m => (List.range (m / 2 + 1)).map (fun k => (k : ℚ))

/-- A kernel whose constant PSD value is the sum of the input samples; it
distinguishes raw from mean-centered input. -/
def kernelSum : WelchKernel := fun x _ _ m => List.replicate (m / 2 + 1) x.sum

/-- A kernel whose constant PSD value is the final `nperseg`; it
distinguishes the segment lengths chosen for different bands. -/
def kernelSeg : WelchKernel := fun _ _ n m => List.replicate (m / 2 + 1) (n : ℚ)

/-- A trivial stand-in for the opaque multitaper routine. -/
def mtZero : MultitaperPSD := fun _ _ => ([], [])

/-- Configuration with the default 4-second window and no exclusions. -/
def cfgWindow4 : PAConfig := ⟨[], [], some 4⟩

/-- Configuration with a quarter-second window. -/
def cfgQuarter : PAConfig := ⟨[], [], some (1 / 4)⟩

/-- Configuration with `window_length_for_welch = None`. -/
def cfgNone : PAConfig := ⟨[], [], none⟩

/-- Scenario C configuration: exclude channel 1; no reported bands; a
1/16-second window. -/
def cfgScenC : PAConfig := ⟨[1], [], some (1 / 16)⟩

/-- A one-channel, rate-1 signal with samples `1, 2, 3, 4`. -/
def sigRamp : PySignal := ⟨[[1], [2], [3], [4]], 1, 1⟩

/-- A one-channel, rate-1 signal with constant samples `1` (mean 1 ≠ 0). -/
def sigOnes : PySignal := ⟨[[1], [1], [1], [1]], 1, 1⟩

/-- A one-channel, rate-2 signal with only 4 samples, shorter than the
configured 4-second window (`win = 8`). -/
def sigShort : PySignal := ⟨[[0], [0], [0], [0]], 2, 1⟩

/-- A one-channel, rate-4 signal with 8 zero samples. -/
def sigEight : PySignal := ⟨List.replicate 8 [0], 4, 1⟩

/-- A three-channel, rate-64 signal with 4 zero samples per channel. -/
def sigScenC : PySignal := ⟨List.replicate 4 [0, 0, 0], 64, 3⟩

/-- A two-channel signal used to witness DC-shift invariance. -/
def sigTwoCh : PySignal := ⟨[[1, 2], [3, 4]], 2, 2⟩

/-- A one-channel signal whose samples already have zero mean. -/
def sigZeroMean : PySignal := ⟨[[1], [-1]], 1, 1⟩

/-- A five-bin all-zero PSD curve with one bin inside each canonical
band. -/
def curveZero5 : Curve := ⟨[1, 5, 9, 20, 40], [0, 0, 0, 0, 0]⟩

/-- A single-bin curve. -/
def curveOneBin : Curve := ⟨[0], [1]⟩

/-- A three-bin curve whose frequency axis ends at 2 Hz, so the theta band
(4–8 Hz) selects no bins. -/
def curveThreeBin : Curve := ⟨[0, 1, 2], [1, 1, 1]⟩

/-- A nine-bin curve with 4 Hz spacing, two bins inside each canonical
band or more. -/
def curveNine : Curve := ⟨[0, 4, 8, 12, 16, 20, 24, 28, 32],
  [0, 0, 0, 0, 0, 0, 0, 0, 0]⟩

/-- The curve `computing_welch_periodogram` produces for every channel of
`sigScenC` under `cfgScenC` and the zero kernel: 9 bins at 4 Hz spacing. -/
def curveScen : Curve := ⟨[0, 4, 8, 12, 16, 20, 24, 28, 32],
  [0, 0, 0, 0, 0, 0, 0, 0, 0]⟩

/-- The corresponding PowerRecord: canonical masks over `curveScen.freqs`,
zero band powers, and `nan` relative powers. -/
def recScen : PowerRecord := ⟨
  [false, true, false, false, false, false, false, false, false],
  [false, true, true, false, false, false, false, false, false],
  [false, false, true, true, false, false, false, false, false],
  [false, false, false, true, true, true, true, true, false],
  [false, false, false, false, false, false, false, false, true],
  0, 0, 0, 0, 0, .nan, .nan, .nan, .nan, .nan⟩

/-- The PSD dictionary `pyCall` returns on `[sigScenC]` under `cfgScenC`:
chunk 0 only, channels 0 and 2 (channel 1 excluded). -/
def C8psd : List (ℕ × List (ℕ × Curve)) :=
  [(0, [(0, curveScen), (2, curveScen)])]

/-- The power dictionary `pyCall` returns on `[sigScenC]`. -/
def C8pwr : List (ℕ × List (ℕ × PowerRecord)) :=
  [(0, [(0, recScen), (2, recScen)])]

/-! ## Helper lemmas -/

@[simp]
theorem ok_bind {α β : Type} (a : α) (f : α → Except PyErr β) :
    (Except.ok a >>= f) = f a := rfl

@[simp]
theorem error_bind {α β : Type} (e : PyErr) (f : α → Except PyErr β) :
    ((Except.error e : Except PyErr α) >>= f) = .error e := rfl

@[simp]
theorem ok_expbind {α β : Type} (a : α) (f : α → Except PyErr β) :
    Except.bind (Except.ok a) f = f a := rfl

@[simp]
theorem error_expbind {α β : Type} (e : PyErr) (f : α → Except PyErr β) :
    Except.bind (Except.error e : Except PyErr α) f = .error e := rfl

theorem pyGet_lt {xs : List ℚ} {i : ℕ} (h : i < xs.length) :
    pyGet xs i = .ok (xs.getD i 0) := by
  simp [pyGet, h, List.getD_eq_getElem?_getD, List.getElem?_eq_getElem h]

theorem pyGet_ge {xs : List ℚ} {i : ℕ} (h : xs.length ≤ i) :
    pyGet xs i = .error .indexError := by
  simp [pyGet]
  omega

theorem sum_map_add_const (xs : List ℚ) (c : ℚ) :
    (xs.map (fun a => a + c)).sum = xs.sum + xs.length * c := by
  induction xs with
  | nil => simp
  | cons a t ih => simp [ih]; ring

theorem sum_map_sub_const (xs : List ℚ) (c : ℚ) :
    (xs.map (fun a => a - c)).sum = xs.sum - xs.length * c := by
  induction xs with
  | nil => simp
  | cons a t ih => simp [ih]; ring

theorem npMean_map_add_const (xs : List ℚ) (c : ℚ) (h : xs ≠ []) :
    npMean (xs.map (fun a => a + c)) = npMean xs + c := by
  have hlen : (xs.length : ℚ) ≠ 0 := by
    have := List.length_pos.mpr h
    positivity
  simp only [npMean, sum_map_add_const, List.length_map]
  field_simp
  ring

theorem center_shift (xs : List ℚ) (c : ℚ) :
    center (xs.map (fun a => a + c)) = center xs := by
  rcases eq_or_ne xs [] with rfl | hne
  · simp [center]
  · simp only [center, npMean_map_add_const xs c hne, List.map_map]
    apply List.map_congr_left
    intro a _
    simp only [Function.comp_apply]
    ring

theorem npMean_center (xs : List ℚ) : npMean (center xs) = 0 := by
  rcases eq_or_ne xs [] with rfl | hne
  · simp [center, npMean]
  · have hlen : (xs.length : ℚ) ≠ 0 := by
      have := List.length_pos.mpr hne
      positivity
    simp only [npMean, center, sum_map_sub_const, List.length_map]
    field_simp

theorem center_of_mean_zero {xs : List ℚ} (h : npMean xs = 0) :
    center xs = xs := by
  simp only [center, h, sub_zero]
  exact List.map_id xs

theorem center_center (xs : List ℚ) : center (center xs) = center xs :=
  center_of_mean_zero (npMean_center xs)

theorem col_shift (s : PySignal) (c : ℚ) (ch : ℕ) (hwf : s.wf)
    (hch : ch < s.number_of_channels) :
    (s.shift c).col ch = (s.col ch).map (fun a => a + c) := by
  simp only [PySignal.shift, PySignal.col, List.map_map]
  apply List.map_congr_left
  intro row hrow
  have hlen : ch < row.length := by
    have := hwf row hrow
    omega
  simp [Function.comp, List.getD_eq_getElem?_getD, List.getElem?_map,
    List.getElem?_eq_getElem hlen]

theorem centerData_col (s : PySignal) (ch : ℕ)
    (hch : ch < s.number_of_channels) :
    s.centerData.col ch = center (s.col ch) := by
  simp only [PySignal.centerData, PySignal.col, center, List.map_map]
  apply List.map_congr_left
  intro row _
  have hr : ch < (List.range s.number_of_channels).length := by
    simpa using hch
  simp [Function.comp, List.getD_eq_getElem?_getD, List.getElem?_map,
    List.getElem?_eq_getElem hr]

theorem periodogramLoop_congr (K : WelchKernel) (excl : List ℕ) (win : ℚ)
    (s s2 : PySignal) (hr : s2.rate = s.rate) :
    ∀ (chans : List ℕ),
      (∀ ch ∈ chans, center (s2.col ch) = center (s.col ch)) →
      ∀ acc, periodogramLoop K excl s2 win chans acc =
        periodogramLoop K excl s win chans acc := by
  intro chans
  induction chans with
  | nil => intro _ acc; rfl
  | cons ch rest ih =>
    intro hcol acc
    by_cases hm : ch ∈ excl
    · simp only [periodogramLoop, if_pos hm]
      exact ih (fun a ha => hcol a (List.mem_cons_of_mem ch ha)) acc
    · simp only [periodogramLoop, if_neg hm]
      rw [hcol ch (List.mem_cons_self ch rest), hr]
      cases welch K (center (s.col ch)) s.rate win (some (4 * win)) with
      | error e => rfl
      | ok fp => exact ih (fun a ha => hcol a (List.mem_cons_of_mem ch ha)) _

theorem welch_err_small (K : WelchKernel) (x : List ℚ) (fs np : ℚ)
    (nfft : Option ℚ) (hx : x.length ≠ 0) (h : pyint np < 1) :
    welch K x fs np nfft = .error .valueError := by
  simp [welch, hx, h]

theorem welch_some_ok (K : WelchKernel) (x : List ℚ) (fs np : ℚ)
    (h : 1 ≤ pyint np) : okB (welch K x fs np (some (4 * np))) = true := by
  by_cases hx : x.length = 0
  · simp [welch, hx, okB]
  · have hnp : (0 : ℚ) ≤ np := by
      by_contra hc
      push_neg at hc
      have h2 : pyint np = -⌊-np⌋ := if_neg (by linarith)
      have h3 : (0 : ℤ) ≤ ⌊-np⌋ := Int.floor_nonneg.mpr (by linarith)
      omega
    have hfl : pyint np = ⌊np⌋ := if_pos hnp
    have hle : ((pyint np : ℤ) : ℚ) ≤ np := by
      rw [hfl]
      exact_mod_cast Int.floor_le np
    have hpos : 0 < pyint np := by omega
    unfold welch
    rw [if_neg hx, if_neg (by omega : ¬ pyint np < 1)]
    have hns : (if (x.length : ℤ) < pyint np then (x.length : ℚ)
        else (((pyint np).toNat : ℕ) : ℚ)) ≤ 4 * np := by
      split_ifs with hlen
      · have hq : ((x.length : ℤ) : ℚ) ≤ ((pyint np : ℤ) : ℚ) := by
          exact_mod_cast le_of_lt hlen
        push_cast at hq ⊢
        linarith
      · have htn : (((pyint np).toNat : ℤ) : ℚ) = ((pyint np : ℤ) : ℚ) := by
          exact_mod_cast Int.toNat_of_nonneg (le_of_lt hpos)
        push_cast at htn ⊢
        linarith
    simp [okB, not_lt.mpr hns]

theorem periodogramLoop_ok (K : WelchKernel) (excl : List ℕ) (s : PySignal)
    (win : ℚ)
    (hall : ∀ ch, okB (welch K (center (s.col ch)) s.rate win
      (some (4 * win))) = true) :
    ∀ (chans : List ℕ) (acc : List (ℕ × Curve)),
      okB (periodogramLoop K excl s win chans acc) = true := by
  intro chans
  induction chans with
  | nil => intro acc; rfl
  | cons ch rest ih =>
    intro acc
    by_cases hm : ch ∈ excl
    · simp only [periodogramLoop, if_pos hm]
      exact ih acc
    · simp only [periodogramLoop, if_neg hm]
      cases hw2 : welch K (center (s.col ch)) s.rate win (some (4 * win)) with
      | error e =>
        have := hall ch
        rw [hw2] at this
        exact absurd this (by simp [okB])
      | ok fp => exact ih _

theorem getD_nonneg {y : List ℚ} (h : ∀ a ∈ y, 0 ≤ a) (i : ℕ) :
    0 ≤ y.getD i 0 := by
  rcases lt_or_ge i y.length with hi | hi
  · rw [List.getD_eq_getElem?_getD, List.getElem?_eq_getElem hi]
    exact h _ (List.getElem_mem hi)
  · rw [List.getD_eq_default _ _ hi]

theorem getD_zero_of_all_zero {y : List ℚ} (h : ∀ a ∈ y, a = 0) (i : ℕ) :
    y.getD i 0 = 0 := by
  rcases lt_or_ge i y.length with hi | hi
  · rw [List.getD_eq_getElem?_getD, List.getElem?_eq_getElem hi]
    exact h _ (List.getElem_mem hi)
  · rw [List.getD_eq_default _ _ hi]

theorem list_sum_zero_all {l : List ℚ} (h : ∀ a ∈ l, 0 ≤ a)
    (hs : l.sum = 0) : ∀ a ∈ l, a = 0 := by
  induction l with
  | nil => simp
  | cons a t ih =>
    simp only [List.sum_cons] at hs
    have hta : 0 ≤ a := h a (by simp)
    have htt : 0 ≤ t.sum := List.sum_nonneg (fun b hb => h b (by simp [hb]))
    have ha : a = 0 := by linarith
    have hts : t.sum = 0 := by linarith
    intro b hb
    rcases List.mem_cons.mp hb with rfl | hb2
    · exact ha
    · exact ih (fun b2 hb2 => h b2 (by simp [hb2])) hts b hb2

theorem simpsonPairs_succ (y : List ℚ) (m : ℕ) :
    simpsonPairs y (m + 1) = simpsonPairs y m +
      (y.getD (2 * m) 0 + 4 * y.getD (2 * m + 1) 0 + y.getD (2 * m + 2) 0) := by
  simp [simpsonPairs, List.range_succ]

theorem simpsonPairs_nonneg {y : List ℚ} (h : ∀ i, 0 ≤ y.getD i 0) (m : ℕ) :
    0 ≤ simpsonPairs y m := by
  apply List.sum_nonneg
  intro a ha
  rcases List.mem_map.mp ha with ⟨j, _, rfl⟩
  have h1 := h (2 * j)
  have h2 := h (2 * j + 1)
  have h3 := h (2 * j + 2)
  linarith

theorem simpsonPairs_zero {y : List ℚ} (h : ∀ i, 0 ≤ y.getD i 0) {m : ℕ}
    (hz : simpsonPairs y m = 0) :
    ∀ j < m, y.getD (2 * j) 0 = 0 ∧ y.getD (2 * j + 1) 0 = 0 ∧
      y.getD (2 * j + 2) 0 = 0 := by
  intro j hj
  have hterm : ∀ a ∈ (List.range m).map
      (fun i => y.getD (2 * i) 0 + 4 * y.getD (2 * i + 1) 0 +
        y.getD (2 * i + 2) 0), a = 0 := by
    apply list_sum_zero_all
    · intro a ha
      rcases List.mem_map.mp ha with ⟨i, _, rfl⟩
      have h1 := h (2 * i)
      have h2 := h (2 * i + 1)
      have h3 := h (2 * i + 2)
      linarith
    · exact hz
  have ht := hterm _ (List.mem_map_of_mem _ (List.mem_range.mpr hj))
  have h1 := h (2 * j)
  have h2 := h (2 * j + 1)
  have h3 := h (2 * j + 2)
  exact ⟨by linarith, by linarith, by linarith⟩

theorem simpson_zero_entries {y : List ℚ} {dx : ℚ} (hdx : 0 < dx)
    (h2 : 2 ≤ y.length) (hnn : ∀ a ∈ y, 0 ≤ a)
    (h0 : simpson y dx = .ok 0) : ∀ a ∈ y, a = 0 := by
  have hg : ∀ i, 0 ≤ y.getD i 0 := getD_nonneg hnn
  have hdx3 : dx / 3 ≠ 0 := by positivity
  suffices hz : ∀ i < y.length, y.getD i 0 = 0 by
    intro a ha
    rcases List.mem_iff_getElem.mp ha with ⟨i, hi, rfl⟩
    have hzi := hz i hi
    rwa [List.getD_eq_getElem?_getD, List.getElem?_eq_getElem hi] at hzi
  unfold simpson at h0
  by_cases hpar : y.length % 2 = 1
  · rw [if_pos hpar] at h0
    simp only [Except.ok.injEq] at h0
    have hP : simpsonPairs y ((y.length - 1) / 2) = 0 := by
      rcases mul_eq_zero.mp h0 with hx | hP
      · exact absurd hx hdx3
      · exact hP
    obtain ⟨k, hk⟩ : ∃ k, y.length = 2 * k + 1 :=
      ⟨(y.length - 1) / 2, by omega⟩
    have hkm : (y.length - 1) / 2 = k := by omega
    rw [hkm] at hP
    have htrip := simpsonPairs_zero hg hP
    intro i hi
    rw [hk] at hi
    rcases Nat.even_or_odd i with ⟨j, hj⟩ | ⟨j, hj⟩
    · by_cases hjk : j < k
      · have := (htrip j hjk).1
        rwa [show 2 * j = i by omega] at this
      · have hk1 : 1 ≤ k := by omega
        have := (htrip (k - 1) (by omega)).2.2
        rwa [show 2 * (k - 1) + 2 = i by omega] at this
    · have hjk : j < k := by omega
      have := (htrip j hjk).2.1
      rwa [show 2 * j + 1 = i by omega] at this
  · rw [if_neg hpar] at h0
    have h00 : y.length ≠ 0 := by omega
    rw [if_neg h00] at h0
    by_cases h22 : y.length = 2
    · rw [if_pos h22] at h0
      simp only [Except.ok.injEq] at h0
      have hsum : y.getD 0 0 + y.getD 1 0 = 0 := by
        rcases mul_eq_zero.mp h0 with hx | hs
        · exact absurd hx (by positivity)
        · exact hs
      have hg0 := hg 0
      have hg1 := hg 1
      intro i hi
      rw [h22] at hi
      interval_cases i
      · linarith
      · linarith
    · rw [if_neg h22] at h0
      simp only [Except.ok.injEq] at h0
      obtain ⟨k, hk⟩ : ∃ k, y.length = 2 * k + 4 :=
        ⟨(y.length - 4) / 2, by omega⟩
      have hm : (y.length - 2) / 2 = k + 1 := by omega
      rw [hm, simpsonPairs_succ, show y.length - 1 = 2 * k + 3 by omega,
        show y.length - 2 = 2 * k + 2 by omega,
        show y.length - 3 = 2 * k + 1 by omega] at h0
      have hT : dx * (simpsonPairs y k / 3 + y.getD (2 * k) 0 / 3 +
          (5 / 4) * y.getD (2 * k + 1) 0 + y.getD (2 * k + 2) 0 +
          (5 / 12) * y.getD (2 * k + 3) 0) = 0 := by
        linear_combination h0
      have hT2 : simpsonPairs y k / 3 + y.getD (2 * k) 0 / 3 +
          (5 / 4) * y.getD (2 * k + 1) 0 + y.getD (2 * k + 2) 0 +
          (5 / 12) * y.getD (2 * k + 3) 0 = 0 := by
        rcases mul_eq_zero.mp hT with hx | hTT
        · exact absurd hx (ne_of_gt hdx)
        · exact hTT
      have hPnn : 0 ≤ simpsonPairs y k := simpsonPairs_nonneg hg k
      have hu := hg (2 * k)
      have hv := hg (2 * k + 1)
      have hw := hg (2 * k + 2)
      have hA := hg (2 * k + 3)
      have hP0 : simpsonPairs y k = 0 := by linarith
      have hu0 : y.getD (2 * k) 0 = 0 := by linarith
      have hv0 : y.getD (2 * k + 1) 0 = 0 := by linarith
      have hw0 : y.getD (2 * k + 2) 0 = 0 := by linarith
      have hA0 : y.getD (2 * k + 3) 0 = 0 := by linarith
      have htrip := simpsonPairs_zero hg hP0
      intro i hi
      rw [hk] at hi
      by_cases hlt : i < 2 * k
      · rcases Nat.even_or_odd i with ⟨j, hj⟩ | ⟨j, hj⟩
        · have hjk : j < k := by omega
          have := (htrip j hjk).1
          rwa [show 2 * j = i by omega] at this
        · have hjk : j < k := by omega
          have := (htrip j hjk).2.1
          rwa [show 2 * j + 1 = i by omega] at this
      · have hcase : i = 2 * k ∨ i = 2 * k + 1 ∨ i = 2 * k + 2 ∨
            i = 2 * k + 3 := by omega
        rcases hcase with rfl | rfl | rfl | rfl
        · exact hu0
        · exact hv0
        · exact hw0
        · exact hA0

theorem simpson_all_zero {y : List ℚ} (dx : ℚ) (hne : y ≠ [])
    (hz : ∀ a ∈ y, a = 0) : simpson y dx = .ok 0 := by
  have hg : ∀ i, y.getD i 0 = 0 := getD_zero_of_all_zero hz
  have hp : ∀ m, simpsonPairs y m = 0 := by
    intro m
    apply List.sum_eq_zero
    intro a ha
    rcases List.mem_map.mp ha with ⟨j, _, rfl⟩
    rw [hg, hg, hg]
    ring
  have hn0 : y.length ≠ 0 := fun h => hne (List.length_eq_zero.mp h)
  unfold simpson
  by_cases hpar : y.length % 2 = 1
  · rw [if_pos hpar, hp]
    norm_num
  · rw [if_neg hpar, if_neg hn0]
    by_cases h22 : y.length = 2
    · rw [if_pos h22, hg, hg]
      norm_num
    · rw [if_neg h22, hp, hg, hg, hg]
      norm_num

theorem maskSelect_subset {mask : List Bool} {ys : List ℚ} :
    ∀ a ∈ maskSelect mask ys, a ∈ ys := by
  intro a ha
  simp only [maskSelect, List.mem_map, List.mem_filter] at ha
  rcases ha with ⟨⟨b, q⟩, ⟨hmem, _⟩, rfl⟩
  exact (List.of_mem_zip hmem).2

theorem periodogramLoop_keys (K : WelchKernel) (excl : List ℕ)
    (s : PySignal) (win : ℚ) :
    ∀ (chans : List ℕ) (acc d : List (ℕ × Curve)),
      periodogramLoop K excl s win chans acc = .ok d →
      keysOf d = keysOf acc ++ chans.filter (fun ch => decide (ch ∉ excl)) := by
  intro chans
  induction chans with
  | nil =>
    intro acc d h
    simp only [periodogramLoop, Except.ok.injEq] at h
    subst h
    simp [keysOf]
  | cons ch rest ih =>
    intro acc d h
    simp only [periodogramLoop] at h
    by_cases hm : ch ∈ excl
    · rw [if_pos hm] at h
      rw [ih _ _ h, List.filter_cons]
      simp [hm]
    · rw [if_neg hm] at h
      cases hw : welch K (center (s.col ch)) s.rate win (some (4 * win)) with
      | error e =>
        rw [hw] at h
        exact absurd h (by simp)
      | ok fp =>
        rw [hw] at h
        rw [ih _ _ h, List.filter_cons]
        simp [keysOf, hm]

theorem periodogram_keys (K : WelchKernel) (cfg : PAConfig) (s : PySignal)
    (d : List (ℕ × Curve))
    (h : computing_welch_periodogram K cfg s = .ok d) :
    keysOf d = chanKeys cfg s.number_of_channels := by
  unfold computing_welch_periodogram at h
  cases hw : cfg.window_length_for_welch with
  | none =>
    rw [hw] at h
    exact absurd h (by simp)
  | some w =>
    rw [hw] at h
    have hk := periodogramLoop_keys K cfg.exclude_channel_list s
      (w * s.rate) _ _ _ h
    simpa [keysOf, chanKeys] using hk

theorem power_keys :
    ∀ (d : List (ℕ × Curve)) (p : List (ℕ × PowerRecord)),
      computing_absolute_and_relative_power d = .ok p →
      keysOf p = keysOf d := by
  intro d
  induction d with
  | nil =>
    intro p h
    simp only [computing_absolute_and_relative_power, Except.ok.injEq] at h
    subst h
    rfl
  | cons kc rest ih =>
    intro p h
    obtain ⟨k, c⟩ := kc
    simp only [computing_absolute_and_relative_power] at h
    cases hc : channelPower c with
    | error e =>
      rw [hc] at h
      exact absurd h (by simp)
    | ok r =>
      rw [hc] at h
      cases hr : computing_absolute_and_relative_power rest with
      | error e =>
        rw [hr] at h
        exact absurd h (by simp)
      | ok rs =>
        rw [hr] at h
        simp only [Except.ok.injEq] at h
        subst h
        simp only [keysOf, List.map_cons]
        have := ih rs hr
        simp only [keysOf] at this
        rw [this]

theorem callLoop_keys (K : WelchKernel) (M : MultitaperPSD) (cfg : PAConfig) :
    ∀ (sigs : List PySignal) (ci : ℕ)
      (pa psdD : List (ℕ × List (ℕ × Curve)))
      (wa pwrD : List (ℕ × List (ℕ × PowerRecord))),
      callLoop K M cfg sigs ci pa wa = .ok (psdD, pwrD) →
      ∃ nP nW, psdD = pa ++ nP ∧ pwrD = wa ++ nW ∧
        nP.map Prod.fst = List.range' ci sigs.length ∧
        nW.map Prod.fst = List.range' ci sigs.length ∧
        List.Forall₂
          (fun e s => keysOf e.2 = chanKeys cfg s.number_of_channels)
          nP sigs ∧
        List.Forall₂
          (fun e s => keysOf e.2 = chanKeys cfg s.number_of_channels)
          nW sigs := by
  intro sigs
  induction sigs with
  | nil =>
    intro ci pa psdD wa pwrD h
    simp only [callLoop, Except.ok.injEq, Prod.mk.injEq] at h
    exact ⟨[], [], by simp [h.1.symm], by simp [h.2.symm], rfl, rfl,
      List.Forall₂.nil, List.Forall₂.nil⟩
  | cons s rest ih =>
    intro ci pa psdD wa pwrD h
    simp only [callLoop] at h
    cases hper : computing_welch_periodogram K cfg s with
    | error e =>
      simp only [hper] at h
      exact absurd h (by simp)
    | ok d =>
      simp only [hper] at h
      cases hpow : computing_absolute_and_relative_power d with
      | error e =>
        simp only [hpow] at h
        exact absurd h (by simp)
      | ok p =>
        simp only [hpow] at h
        cases hrat : computing_ratio_and_bandpower K M cfg s
            (wa ++ [(ci, p)]) ci with
        | error e =>
          simp only [hrat] at h
          exact absurd h (by simp)
        | ok u =>
          simp only [hrat] at h
          obtain ⟨nP, nW, e1, e2, m1, m2, f1, f2⟩ :=
            ih (ci + 1) (pa ++ [(ci, d)]) psdD (wa ++ [(ci, p)]) pwrD h
          refine ⟨(ci, d) :: nP, (ci, p) :: nW, ?_, ?_, ?_, ?_, ?_, ?_⟩
          · rw [e1]; simp
          · rw [e2]; simp
          · simp [m1, List.range'_succ]
          · simp [m2, List.range'_succ]
          · exact List.Forall₂.cons (periodogram_keys K cfg s d hper) f1
          · exact List.Forall₂.cons
              ((power_keys d p hpow).trans (periodogram_keys K cfg s d hper))
              f2

/-! ## Claim theorems -/

/-- C7: for every PSD curve `c` and frequency band `(low, high)`, the band
mask built against `c` (used by the integrator in lines 125–129, 291 and
328) is true at index `i` iff `low ≤ c.freqs[i] ≤ high`, a closed interval
at both ends. -/
theorem C7_theorem (low high : ℚ) (c : Curve) (i : ℕ)
    (h : i < c.freqs.length) :
    ((bandMask low high c.freqs).getD i false = true ↔
      low ≤ c.freqs.getD i 0 ∧ c.freqs.getD i 0 ≤ high) := by
  simp [bandMask, List.getD_eq_getElem?_getD, List.getElem?_map,
    List.getElem?_eq_getElem h]

/-- Witness for C7 at a boundary frequency: the bin exactly at the band's
low edge is included. -/
theorem C7_witness :
    1 < curveNine.freqs.length ∧
      ((bandMask 4 8 curveNine.freqs).getD 1 false = true ↔
        4 ≤ curveNine.freqs.getD 1 0 ∧ curveNine.freqs.getD 1 0 ≤ 8) :=
  ⟨by decide, C7_theorem 4 8 curveNine 1 (by decide)⟩

set_option maxHeartbeats 1600000 in
/-- C1 counterexample: `computing_welch_bandpower` does not evaluate the
curve stored by `computing_welch_periodogram`.  On a concrete chunk with
a kernel depending only on `nfft`, the stored curve (mean-centered input,
`nfft = 4·nperseg`, 9 bins of width 1/16) integrates to 2 over the band
(0, 1), while the reported Welch band power (raw input, default
`nfft = nperseg`, 3 bins of width 1/4) is 1/2. -/
theorem C1_counterexample :
    (computing_welch_periodogram kernelIndex cfgWindow4 sigRamp).bind
        (fun d => bandPowerFromCurve (0, 1) false (lookupD d 0 ⟨[], []⟩)) =
        .ok (.val 2) ∧
      computing_welch_bandpower kernelIndex cfgWindow4 sigRamp (0, 1) 0 false =
        .ok (.val (1 / 2)) ∧
      (PyFloat.val 2 : PyFloat) ≠ .val (1 / 2) := by
  refine ⟨?_, ?_, by norm_num⟩
  · simp [computing_welch_periodogram, periodogramLoop, kernelIndex,
      cfgWindow4, sigRamp, PySignal.col, center, npMean, welch, pyint,
      rfftfreq, lookupD, bandPowerFromCurve, pyGet, bandMask, maskSelect,
      simpson, simpsonPairs, npdiv, List.range_succ, List.find?]
    try norm_num
    try simp [lookupD, bandPowerFromCurve, pyGet, bandMask, maskSelect,
      simpson, simpsonPairs, npdiv, List.range_succ, List.find?]
    try norm_num [List.range_succ]
  · simp [computing_welch_bandpower, kernelIndex, cfgWindow4, sigRamp,
      PySignal.col, welch, pyint, rfftfreq, pyGet, bandMask, maskSelect,
      simpson, simpsonPairs, npdiv, List.range_succ]
    try norm_num [List.range_succ]

/-- C1 amended: with a configured window, the absolute Welch band power
reported to the logging collaborator equals the Band-Power Integrator
applied to a *freshly computed* Welch PSD of the raw channel samples with
`nperseg = window_length_for_welch · rate` and default `nfft = nperseg` —
not to the stored periodogram curve, which is computed from mean-centered
samples with `nfft = 4 · nperseg` and in general differs. -/
theorem C1_theorem (K : WelchKernel) (cfg : PAConfig) (s : PySignal)
    (band : ℚ × ℚ) (ch : ℕ) (w : ℚ)
    (hw : cfg.window_length_for_welch = some w) :
    computing_welch_bandpower K cfg s band ch false =
      (welch K (s.col ch) s.rate (w * s.rate) none).bind
        (fun fp => bandPowerFromCurve band false ⟨fp.1, fp.2⟩) := by
  simp only [computing_welch_bandpower, bandPowerFromCurve, hw]
  rfl

/-- Witness for C1 amended at a concrete configuration. -/
theorem C1_witness :
    cfgWindow4.window_length_for_welch = some 4 ∧
      computing_welch_bandpower kernelZero cfgWindow4 sigOnes (4, 8) 0 false =
        (welch kernelZero (sigOnes.col 0) sigOnes.rate (4 * sigOnes.rate)
            none).bind
          (fun fp => bandPowerFromCurve (4, 8) false ⟨fp.1, fp.2⟩) :=
  ⟨rfl, C1_theorem kernelZero cfgWindow4 sigOnes (4, 8) 0 4 rfl⟩

/-- C3 counterexample: the configured 4-second window at rate 2 (8
samples) exceeds the 4-sample chunk, yet the invocation does not fail:
scipy clamps `nperseg` to the sample count and the periodogram is
returned.  No `InvalidWindowError` is raised. -/
theorem C3_counterexample :
    ((sigShort.data.length : ℚ) < 4 * sigShort.rate ∧
        cfgWindow4.window_length_for_welch = some 4) ∧
      computing_welch_periodogram kernelZero cfgWindow4 sigShort =
        .ok [(0, ⟨rfftfreq 32 2, List.replicate 17 0⟩)] ∧
      computing_welch_periodogram kernelZero cfgWindow4 sigShort ≠
        .error .invalidWindowError := by
  have h : computing_welch_periodogram kernelZero cfgWindow4 sigShort =
      .ok [(0, ⟨rfftfreq 32 2, List.replicate 17 0⟩)] := by
    simp [computing_welch_periodogram, periodogramLoop, kernelZero,
      cfgWindow4, sigShort, PySignal.col, center, npMean, welch, pyint,
      rfftfreq, List.range_succ, List.replicate]
    try norm_num
    try simp [List.range_succ, List.replicate]
    try norm_num [List.range_succ, List.replicate]
  exact ⟨⟨by norm_num [sigShort], rfl⟩, h, by rw [h]; simp⟩

/-- C3 amended: there is no `InvalidWindowError`.  If the truncated window
length `int(window_seconds · rate)` is smaller than 1 and a channel is
processed, the invocation fails with scipy's generic `ValueError`; if it
merely exceeds the chunk's sample count, scipy silently clamps `nperseg`
and the invocation succeeds.  Any failure aborts the whole `__call__`
with no partial results. -/
theorem C3_theorem (K : WelchKernel) (cfg : PAConfig) (s : PySignal) (w : ℚ)
    (hw : cfg.window_length_for_welch = some w) (hd : 0 < s.data.length) :
    (pyint (w * s.rate) < 1 → 0 < s.number_of_channels →
        0 ∉ cfg.exclude_channel_list →
        computing_welch_periodogram K cfg s = .error .valueError) ∧
      (1 ≤ pyint (w * s.rate) →
        okB (computing_welch_periodogram K cfg s) = true) ∧
      (∀ (M : MultitaperPSD) (sigs : List PySignal) (e : PyErr),
        computing_welch_periodogram K cfg s = .error e →
        pyCall K M cfg (s :: sigs) = .error e) := by
  refine ⟨?_, ?_, ?_⟩
  · intro h1 h2 h3
    simp only [computing_welch_periodogram, hw]
    obtain ⟨m, hm⟩ : ∃ m, s.number_of_channels = m + 1 :=
      ⟨s.number_of_channels - 1, by omega⟩
    rw [hm, List.range_succ_eq_map]
    have hx : (center (s.col 0)).length ≠ 0 := by
      have hlen : (center (s.col 0)).length = s.data.length := by
        simp [center, PySignal.col]
      omega
    simp only [periodogramLoop, if_neg h3,
      welch_err_small K (center (s.col 0)) s.rate (w * s.rate)
        (some (4 * (w * s.rate))) hx h1]
  · intro h
    simp only [computing_welch_periodogram, hw]
    exact periodogramLoop_ok K cfg.exclude_channel_list s (w * s.rate)
      (fun ch => welch_some_ok K (center (s.col ch)) s.rate (w * s.rate) h)
      (List.range s.number_of_channels) []
  · intro M sigs e h
    simp [pyCall, callLoop, h]

/-- Witness for C3 amended: a quarter-second window at rate 1 truncates to
`nperseg = 0` and raises `ValueError`; an 8-sample window over a 4-sample
chunk succeeds. -/
theorem C3_witness :
    computing_welch_periodogram kernelZero cfgQuarter sigOnes =
        .error .valueError ∧
      okB (computing_welch_periodogram kernelZero cfgWindow4 sigShort) =
        true :=
  ⟨(C3_theorem kernelZero cfgQuarter sigOnes (1 / 4) rfl (by decide)).1
      (by norm_num [pyint, sigOnes]) (by decide) (by decide),
    (C3_theorem kernelZero cfgWindow4 sigShort 4 rfl (by decide)).2.1
      (by norm_num [pyint, sigShort])⟩

/-- C9: the per-chunk Welch periodogram is invariant under adding a
constant DC offset to every sample: the column mean is subtracted before
`sig.welch` (line 88), so a shifted buffer is centered to the same
samples. -/
theorem C9_theorem (K : WelchKernel) (cfg : PAConfig) (s : PySignal) (c : ℚ)
    (hwf : s.wf) :
    computing_welch_periodogram K cfg (s.shift c) =
      computing_welch_periodogram K cfg s := by
  unfold computing_welch_periodogram
  cases hw : cfg.window_length_for_welch with
  | none => rfl
  | some w =>
    have hn : (s.shift c).number_of_channels = s.number_of_channels := rfl
    have hrate : (s.shift c).rate = s.rate := rfl
    rw [hn, hrate]
    apply periodogramLoop_congr K cfg.exclude_channel_list (w * s.rate)
      s (s.shift c) hrate
    intro ch hch
    rw [col_shift s c ch hwf (List.mem_range.mp hch), center_shift]

/-- Witness for C9: shifting a concrete well-formed signal by 5 leaves the
periodogram result unchanged. -/
theorem C9_witness :
    sigTwoCh.wf ∧
      computing_welch_periodogram kernelSum cfgWindow4 (sigTwoCh.shift 5) =
        computing_welch_periodogram kernelSum cfgWindow4 sigTwoCh :=
  ⟨by decide, C9_theorem kernelSum cfgWindow4 sigTwoCh 5 (by decide)⟩

/-- C2 counterexample: on a constant-1 signal (mean 1), the per-band Welch
power of the source differs from the mean-centered variant the spec
prescribes, for a kernel whose PSD is the sum of its input samples — so
`computing_welch_bandpower` does not mean-center its samples. -/
theorem C2_counterexample :
    computing_welch_bandpower kernelSum cfgWindow4 sigOnes (0, 1) 0 false =
        .ok (.val 2) ∧
      computing_welch_bandpower_centered kernelSum cfgWindow4 sigOnes
          (0, 1) 0 false =
        .ok (.val 0) ∧
      computing_welch_bandpower kernelSum cfgWindow4 sigOnes (0, 1) 0 false ≠
        computing_welch_bandpower_centered kernelSum cfgWindow4 sigOnes
          (0, 1) 0 false := by
  refine ⟨?_, ?_, ?_⟩
  · simp [computing_welch_bandpower, kernelSum, cfgWindow4, sigOnes,
      PySignal.col, welch, pyint, rfftfreq, pyGet, bandMask, maskSelect,
      simpson, simpsonPairs, npdiv, List.range_succ]
    norm_num [List.range_succ]
  · simp [computing_welch_bandpower_centered, kernelSum, cfgWindow4, sigOnes,
      PySignal.col, welch, pyint, rfftfreq, center, npMean, pyGet, bandMask,
      maskSelect, simpson, simpsonPairs, npdiv, List.range_succ]
    norm_num [List.range_succ]
  · intro hla
    have h1 :
        computing_welch_bandpower kernelSum cfgWindow4 sigOnes (0, 1) 0 false =
          .ok (.val 2) := by
      simp [computing_welch_bandpower, kernelSum, cfgWindow4, sigOnes,
        PySignal.col, welch, pyint, rfftfreq, pyGet, bandMask, maskSelect,
        simpson, simpsonPairs, npdiv, List.range_succ]
      norm_num [List.range_succ]
    have h2 :
        computing_welch_bandpower_centered kernelSum cfgWindow4 sigOnes
            (0, 1) 0 false =
          .ok (.val 0) := by
      simp [computing_welch_bandpower_centered, kernelSum, cfgWindow4, sigOnes,
        PySignal.col, welch, pyint, rfftfreq, center, npMean, pyGet, bandMask,
        maskSelect, simpson, simpsonPairs, npdiv, List.range_succ]
      norm_num [List.range_succ]
    rw [h1, h2] at hla
    simp at hla

/-- C2 amended: the samples are mean-centered before `sig.welch` in
`computing_welch_periodogram` (pre-centering the buffer changes nothing),
but `computing_welch_bandpower` passes the raw channel samples to
`sig.welch` — it agrees with the mean-centered variant only when the
channel mean is already zero. -/
theorem C2_theorem (K : WelchKernel) (cfg : PAConfig) (s : PySignal) :
    (computing_welch_periodogram K cfg s.centerData =
        computing_welch_periodogram K cfg s) ∧
      (∀ (band : ℚ × ℚ) (ch : ℕ) (rel : Bool), npMean (s.col ch) = 0 →
        computing_welch_bandpower K cfg s band ch rel =
          computing_welch_bandpower_centered K cfg s band ch rel) := by
  constructor
  · unfold computing_welch_periodogram
    cases hw : cfg.window_length_for_welch with
    | none => rfl
    | some w =>
      have hn : s.centerData.number_of_channels = s.number_of_channels := rfl
      have hrate : s.centerData.rate = s.rate := rfl
      rw [hn, hrate]
      apply periodogramLoop_congr K cfg.exclude_channel_list (w * s.rate)
        s s.centerData hrate
      intro ch hch
      rw [centerData_col s ch (List.mem_range.mp hch), center_center]
  · intro band ch rel h
    unfold computing_welch_bandpower computing_welch_bandpower_centered
    rw [center_of_mean_zero h]

/-- Witness for C2 amended, on a zero-mean signal. -/
theorem C2_witness :
    computing_welch_periodogram kernelSum cfgWindow4 sigZeroMean.centerData =
        computing_welch_periodogram kernelSum cfgWindow4 sigZeroMean ∧
      computing_welch_bandpower kernelSum cfgWindow4 sigZeroMean
          (0, 1) 0 false =
        computing_welch_bandpower_centered kernelSum cfgWindow4 sigZeroMean
          (0, 1) 0 false :=
  ⟨(C2_theorem kernelSum cfgWindow4 sigZeroMean).1,
    (C2_theorem kernelSum cfgWindow4 sigZeroMean).2 (0, 1) 0 false (by
      norm_num [npMean, PySignal.col, sigZeroMean])⟩

set_option maxHeartbeats 800000 in
/-- C10: when `window_length_for_welch` is `None`, `computing_welch_bandpower`
does not fail but falls back to `nperseg = (2 / band.low) · rate` (line
324), so the Welch curve and the reported band power depend on the low
edge of the band being queried; with a configured window the segment
length is `window · rate` for every band.  The last clause exhibits the
dependence at a concrete input: two bands of the same signal get segment
lengths 8 and 4 and band powers 8 and 0. -/
theorem C10_theorem :
    (∀ (K : WelchKernel) (s : PySignal) (excl : List ℕ) (bl : List (ℚ × ℚ))
        (band : ℚ × ℚ) (ch : ℕ) (rel : Bool), band.1 ≠ 0 →
        computing_welch_bandpower K ⟨excl, bl, none⟩ s band ch rel =
          (welch K (s.col ch) s.rate ((2 / band.1) * s.rate) none).bind
            (fun fp => bandPowerFromCurve band rel ⟨fp.1, fp.2⟩)) ∧
      (∀ (K : WelchKernel) (s : PySignal) (excl : List ℕ)
          (bl : List (ℚ × ℚ)) (w : ℚ) (band : ℚ × ℚ) (ch : ℕ) (rel : Bool),
        computing_welch_bandpower K ⟨excl, bl, some w⟩ s band ch rel =
          (welch K (s.col ch) s.rate (w * s.rate) none).bind
            (fun fp => bandPowerFromCurve band rel ⟨fp.1, fp.2⟩)) ∧
      computing_welch_bandpower kernelSeg cfgNone sigEight (1, 2) 0 false =
        .ok (.val 8) ∧
      computing_welch_bandpower kernelSeg cfgNone sigEight (2, 3) 0 false =
        .ok (.val 0) := by
  refine ⟨?_, ?_, ?_, ?_⟩
  · intro K s excl bl band ch rel h
    simp only [computing_welch_bandpower, bandPowerFromCurve, if_neg h]
    rfl
  · intro K s excl bl w band ch rel
    simp only [computing_welch_bandpower, bandPowerFromCurve]
    rfl
  · simp [computing_welch_bandpower, kernelSeg, cfgNone, sigEight,
      PySignal.col, welch, pyint, rfftfreq, pyGet, bandMask, maskSelect,
      simpson, simpsonPairs, npdiv, List.range_succ, List.replicate]
    try norm_num
    try simp [pyGet, bandMask, maskSelect, simpson, simpsonPairs, npdiv,
      List.range_succ, List.replicate]
    try norm_num [List.range_succ]
  · simp [computing_welch_bandpower, kernelSeg, cfgNone, sigEight,
      PySignal.col, welch, pyint, rfftfreq, pyGet, bandMask, maskSelect,
      simpson, simpsonPairs, npdiv, List.range_succ, List.replicate]
    try norm_num
    try simp [pyGet, bandMask, maskSelect, simpson, simpsonPairs, npdiv,
      List.range_succ, List.replicate]
    try norm_num [List.range_succ]

/-- Witness for C10 at a concrete band and kernel. -/
theorem C10_witness :
    computing_welch_bandpower kernelSeg ⟨[], [], none⟩ sigEight (1, 2) 0
        false =
      (welch kernelSeg (sigEight.col 0) sigEight.rate ((2 / 1) * sigEight.rate)
          none).bind
        (fun fp => bandPowerFromCurve (1, 2) false ⟨fp.1, fp.2⟩) :=
  C10_theorem.1 kernelSeg sigEight [] [] (1, 2) 0 false (by norm_num)

/-- C4 counterexample: on a curve with a single frequency bin the band
power computation raises `IndexError` (the `freqs[1]` lookup of line 123),
not the specification's `InsufficientResolutionError`. -/
theorem C4_counterexample :
    computing_absolute_and_relative_power [(0, curveOneBin)] =
        .error .indexError ∧
      curveOneBin.freqs.length < 2 ∧
      (Except.error .indexError : Except PyErr (List (ℕ × PowerRecord))) ≠
        .error .insufficientResolutionError :=
  ⟨by decide, by decide, by decide⟩

/-- C4 amended: on a curve with fewer than 2 frequency bins the
per-channel band-power computation fails with `IndexError` (there is no
`InsufficientResolutionError` in the code); with at least 2 bins, the rest
of the computation runs with `Δf = freqs[1] - freqs[0]`. -/
theorem C4_theorem (c : Curve) :
    (c.freqs.length < 2 → channelPower c = .error .indexError) ∧
      (2 ≤ c.freqs.length →
        channelPower c =
          channelPowerAux c (c.freqs.getD 1 0 - c.freqs.getD 0 0)) := by
  constructor
  · intro h
    have h1 : c.freqs.length ≤ 1 := by omega
    simp [channelPower, pyGet_ge h1]
  · intro h
    have h1 : 1 < c.freqs.length := by omega
    have h0 : 0 < c.freqs.length := by omega
    simp [channelPower, pyGet_lt h1, pyGet_lt h0]

/-- Witness for C4 amended, on a one-bin curve and a nine-bin curve. -/
theorem C4_witness :
    channelPower curveOneBin = .error .indexError ∧
      channelPower curveNine =
        channelPowerAux curveNine
          (curveNine.freqs.getD 1 0 - curveNine.freqs.getD 0 0) :=
  ⟨(C4_theorem curveOneBin).1 (by decide), (C4_theorem curveNine).2 (by decide)⟩

/-- C5: when the total Simpson power of a nonneg PSD curve is exactly
zero (e.g. an all-zero signal), the relative-power normalization does not
raise: every band power is 0, the numpy division `0.0/0.0` yields `nan`,
and all five relative powers are the same sentinel `nan`.  (The masks must
select at least one bin each — an empty selection dies earlier in the
absolute-power step, which is claim C6's concern.) -/
theorem C5_theorem (c : Curve)
    (hlen : c.psd.length = c.freqs.length)
    (h2 : 2 ≤ c.freqs.length)
    (hnn : ∀ a ∈ c.psd, 0 ≤ a)
    (hdx : 0 < c.freqs.getD 1 0 - c.freqs.getD 0 0)
    (htot : simpson c.psd (c.freqs.getD 1 0 - c.freqs.getD 0 0) = .ok 0)
    (hne : ∀ b ∈ canonicalBands,
      maskSelect (bandMask b.1 b.2 c.freqs) c.psd ≠ []) :
    ∃ r, channelPower c = .ok r ∧
      r.delta_rel_power = .nan ∧ r.theta_rel_power = .nan ∧
      r.alpha_rel_power = .nan ∧ r.beta_rel_power = .nan ∧
      r.gamma_rel_power = .nan := by
  have hzero : ∀ a ∈ c.psd, a = 0 :=
    simpson_zero_entries hdx (hlen ▸ h2) hnn htot
  have hsel : ∀ lo hi : ℚ, (lo, hi) ∈ canonicalBands →
      simpson (maskSelect (bandMask lo hi c.freqs) c.psd)
        (c.freqs.getD 1 0 - c.freqs.getD 0 0) = .ok 0 := by
    intro lo hi hb
    apply simpson_all_zero _ (hne _ hb)
    intro a ha
    exact hzero a (maskSelect_subset a ha)
  have hd := hsel (1 / 2) 4 (by simp [canonicalBands])
  have hth := hsel 4 8 (by simp [canonicalBands])
  have hal := hsel 8 12 (by simp [canonicalBands])
  have hbe := hsel 12 30 (by simp [canonicalBands])
  have hga := hsel 30 100 (by simp [canonicalBands])
  refine ⟨⟨bandMask (1 / 2) 4 c.freqs, bandMask 4 8 c.freqs,
      bandMask 8 12 c.freqs, bandMask 12 30 c.freqs, bandMask 30 100 c.freqs,
      0, 0, 0, 0, 0, npdiv 0 0, npdiv 0 0, npdiv 0 0, npdiv 0 0, npdiv 0 0⟩,
      ?_, by simp [npdiv], by simp [npdiv], by simp [npdiv], by simp [npdiv],
      by simp [npdiv]⟩
  simp only [channelPower, pyGet_lt (show 1 < c.freqs.length by omega),
    pyGet_lt (show 0 < c.freqs.length by omega), ok_bind,
    channelPowerAux, hd, hth, hal, hbe, hga, htot]
  rfl

/-- Witness for C5 on a concrete all-zero five-bin curve. -/
theorem C5_witness :
    ∃ r, channelPower curveZero5 = .ok r ∧
      r.delta_rel_power = .nan ∧ r.theta_rel_power = .nan ∧
      r.alpha_rel_power = .nan ∧ r.beta_rel_power = .nan ∧
      r.gamma_rel_power = .nan :=
  C5_theorem curveZero5 (by decide) (by decide)
    (by
      intro a ha
      simp [curveZero5] at ha
      simp [ha])
    (by norm_num [curveZero5])
    (by
      simp [curveZero5, simpson, simpsonPairs, List.range_succ]
      try norm_num [List.range_succ])
    (by
      intro b hb
      rcases (by simp [canonicalBands] at hb; exact hb :
          b = ((2:ℚ)⁻¹, (4:ℚ)) ∨ b = (4, 8) ∨ b = (8, 12) ∨ b = (12, 30) ∨
            b = (30, 100)) with rfl | rfl | rfl | rfl | rfl <;>
        norm_num [curveZero5, bandMask, maskSelect])

/-- C8: whenever `__call__` returns, its PSDCurve dictionary and its
PowerRecord dictionary have exactly the chunk indices `0 .. len-1` as
keys, and for every chunk the channel keys are exactly the indices
`0 .. channel_count - 1` that are not excluded, in both dictionaries. -/
theorem C8_theorem (K : WelchKernel) (M : MultitaperPSD) (cfg : PAConfig)
    (sigs : List PySignal) (psdD : List (ℕ × List (ℕ × Curve)))
    (pwrD : List (ℕ × List (ℕ × PowerRecord)))
    (h : pyCall K M cfg sigs = .ok (psdD, pwrD)) :
    psdD.map Prod.fst = List.range sigs.length ∧
      pwrD.map Prod.fst = List.range sigs.length ∧
      List.Forall₂
        (fun e s => keysOf e.2 = chanKeys cfg s.number_of_channels)
        psdD sigs ∧
      List.Forall₂
        (fun e s => keysOf e.2 = chanKeys cfg s.number_of_channels)
        pwrD sigs := by
  obtain ⟨nP, nW, e1, e2, m1, m2, f1, f2⟩ :=
    callLoop_keys K M cfg sigs 0 [] psdD [] pwrD h
  simp only [List.nil_append] at e1 e2
  subst e1
  subst e2
  rw [List.range_eq_range']
  exact ⟨m1, m2, f1, f2⟩

set_option maxHeartbeats 3000000 in
/-- Witness for C8: Scenario C — a 3-channel chunk with channel 1
excluded yields chunk key 0 and channel keys 0 and 2 in both result
dictionaries. -/
theorem C8_witness :
    C8psd.map Prod.fst = List.range [sigScenC].length ∧
      C8pwr.map Prod.fst = List.range [sigScenC].length ∧
      List.Forall₂
        (fun e s => keysOf e.2 = chanKeys cfgScenC s.number_of_channels)
        C8psd [sigScenC] ∧
      List.Forall₂
        (fun e s => keysOf e.2 = chanKeys cfgScenC s.number_of_channels)
        C8pwr [sigScenC] :=
  C8_theorem kernelZero mtZero cfgScenC [sigScenC] C8psd C8pwr (by
    simp [pyCall, callLoop, computing_welch_periodogram, periodogramLoop,
      computing_absolute_and_relative_power, channelPower, channelPowerAux,
      computing_ratio_and_bandpower, ratioChannelLoop, ratioBandLoop, lookupD,
      kernelZero, mtZero, cfgScenC, sigScenC, curveScen, recScen, C8psd, C8pwr,
      PySignal.col, center, npMean, welch, pyint, rfftfreq, pyGet, bandMask,
      maskSelect, simpson, simpsonPairs, npdiv, List.range_succ,
      List.replicate, List.find?, List.filter_cons]
    try norm_num
    try simp [computing_absolute_and_relative_power, channelPower,
      channelPowerAux, pyGet, bandMask, maskSelect, simpson, simpsonPairs,
      npdiv, List.range_succ, List.replicate, List.find?, curveScen, recScen,
      lookupD, ratioChannelLoop, ratioBandLoop]
    try norm_num [List.range_succ]
    try simp [computing_absolute_and_relative_power, channelPower,
      channelPowerAux, pyGet, bandMask, maskSelect, simpson, simpsonPairs,
      npdiv, List.range_succ, List.replicate, List.find?, curveScen, recScen,
      lookupD, ratioChannelLoop, ratioBandLoop]
    try norm_num [List.range_succ])

/-- C6: evaluating the code at the failing input.  On a curve whose
frequency axis ends at 2 Hz, the theta band (4–8 Hz) selects zero bins,
and `simpson` on the empty selection raises `IndexError` (numpy integer
indexing `y[-1]` on an empty array) instead of yielding the band power
`0.0` the specification requires. -/
theorem C6_theorem :
    computing_absolute_and_relative_power [(0, curveThreeBin)] =
      .error .indexError := by
  norm_num [computing_absolute_and_relative_power, channelPower,
    channelPowerAux, curveThreeBin, pyGet, bandMask, maskSelect, simpson,
    simpsonPairs, npdiv, List.range_succ]

end PeriodogramAnalysis
